import Mathlib

/-!
Verification of the chunked-array storage engine described by the GDAL
Zarr/ENVI autotest specification.  The driver implementation itself is not
part of the reviewed sources (only its Python autotests are), so the data
model and operations below are modelled from the specification text and
checked against the concrete expectations asserted by the tests.
-/

namespace GdalSpec

/-- Decidable equality of fallible results, so concrete runs can be checked
by evaluation. -/
instance {ε γ : Type} [DecidableEq ε] [DecidableEq γ] :
    DecidableEq (Except ε γ) := fun a b =>
  match a, b with
  | .ok x, .ok y =>
      if h : x = y then .isTrue (by rw [h])
      else .isFalse (by intro hh; injection hh; contradiction)
  | .ok _, .error _ => .isFalse (by intro hh; injection hh)
  | .error _, .ok _ => .isFalse (by intro hh; injection hh)
  | .error e, .error f =>
      if h : e = f then .isTrue (by rw [h])
      else .isFalse (by intro hh; injection hh; contradiction)

/-- The error kinds named by the specification (§7). -/
inductive ZErr where
  | ShrinkNotAllowed
  | InconsistentResize
  | ObjectDeleted
  | NameConflict
  | RecursionLimitExceeded
  | SelfReferenceDetected
  | ReadOnlyMode
  deriving DecidableEq, Repr

/-- Modelled from the spec: a two-dimensional chunked array (§3, §4.3, §4.4).
`tiles` maps a tile coordinate to the decoded row-major chunk contents, or
`none` when the tile is absent from the backing store (meaning "all fill
value").  The element type, its byte width and its endianness are abstracted
into the type parameter `α`: decoding a stored chunk yields a list of
elements, which is where this model starts. -/
structure ZArray2 (α : Type) where
  rows : Nat
  cols : Nat
  chunkR : Nat
  chunkC : Nat
  fill : α
  tiles : Nat × Nat → Option (List α)

variable {α : Type}

/-- Modelled from the spec: reading one cell (§4.3 `ReadTile` plus fill
substitution).  The cell's tile is located by integer division by the chunk
shape; an absent tile reads as the fill value, a present tile is indexed
row-major inside the chunk. -/
def readCell (a : ZArray2 α) (i j : Nat) : α :=
  match a.tiles (i / a.chunkR, j / a.chunkC) with
  | none => a.fill
  | some t => t.getD ((i % a.chunkR) * a.chunkC + (j % a.chunkC)) a.fill

/-- Reading one cell addressed by possibly-negative integer indices;
out-of-range indices read as fill (only in-range indices are exercised). -/
def readCellI (a : ZArray2 α) (i j : Int) : α :=
  if 0 ≤ i ∧ i < (a.rows : Int) ∧ 0 ≤ j ∧ j < (a.cols : Int) then
    readCell a i.toNat j.toNat
  else a.fill

/-- Modelled from the spec: the generic slice read (§4.4 `Read`): for each
dimension `count` elements are produced, walking from `start` by `step`
(which may be negative or greater than one); the output is gathered
row-major over the two count dimensions. -/
def readStrided (a : ZArray2 α) (start : Int × Int) (count : Nat × Nat)
    (step : Int × Int) : List α :=
  (List.range count.1).flatMap (fun k0 =>
    (List.range count.2).map (fun k1 =>
      readCellI a (start.1 + Int.ofNat k0 * step.1)
        (start.2 + Int.ofNat k1 * step.2)))

/-- Reading the whole array in row-major order, cell by cell. -/
def readFull (a : ZArray2 α) : List α :=
  (List.range a.rows).flatMap (fun i =>
    (List.range a.cols).map (fun j => readCell a i j))

/-- Modelled from the spec: the 5×4 array of the Zarr basic test with chunk
shape [2,3], tile (0,0) holding `[v1,v2,v3,v5,v6,v7]`, tile (0,1) holding
`[v4,p1,p2,v8,p3,p4]` (the `p`s sit in the chunk padding beyond column 3)
and every other tile absent.  Values are arbitrary elements of `α`, which
covers every supported element type and endianness at once (decoding is
abstracted into the tile contents). -/
def basicArray (nv v1 v2 v3 v4 v5 v6 v7 v8 p1 p2 p3 p4 : α) : ZArray2 α :=
  { rows := 5, cols := 4, chunkR := 2, chunkC := 3, fill := nv,
    tiles := fun c =>
      if c = (0, 0) then some [v1, v2, v3, v5, v6, v7]
      else if c = (0, 1) then some [v4, p1, p2, v8, p3, p4]
      else none }

/-- C1: For a 5×4 array with chunk shape [2,3] where tile (0,0) holds
[1,2,3,5,6,7] and tile (0,1) holds [4,0,0,8,0,0] and all other tiles are
absent, reading the full array substitutes the fill/no-data value for cells
of missing tiles and returns [1,2,3,4,5,6,7,8] followed by twelve fill
values, in row-major order — for every element type (any `α`, any values,
any padding contents). -/
theorem basic_read_full (nv v1 v2 v3 v4 v5 v6 v7 v8 p1 p2 p3 p4 : α) :
    readFull (basicArray nv v1 v2 v3 v4 v5 v6 v7 v8 p1 p2 p3 p4) =
      [v1, v2, v3, v4, v5, v6, v7, v8] ++ List.replicate 12 nv := by
  simp [readFull, readCell, basicArray, List.range_succ]

/-- C2: the strided read `Read(start=[2,1], count=[2,2], step=[-1,-1])`
returns exactly the cells at [2,1],[2,0],[1,1],[1,0] in that order, matching
direct per-cell indexing; on the basic test grid that is (nv, nv, v6, v5)
since row 2 lies in a missing tile. -/
theorem basic_read_negative_step (nv v1 v2 v3 v4 v5 v6 v7 v8 p1 p2 p3 p4 : α) :
    readStrided (basicArray nv v1 v2 v3 v4 v5 v6 v7 v8 p1 p2 p3 p4)
        (2, 1) (2, 2) (-1, -1) =
      [readCell (basicArray nv v1 v2 v3 v4 v5 v6 v7 v8 p1 p2 p3 p4) 2 1,
       readCell (basicArray nv v1 v2 v3 v4 v5 v6 v7 v8 p1 p2 p3 p4) 2 0,
       readCell (basicArray nv v1 v2 v3 v4 v5 v6 v7 v8 p1 p2 p3 p4) 1 1,
       readCell (basicArray nv v1 v2 v3 v4 v5 v6 v7 v8 p1 p2 p3 p4) 1 0] ∧
    readStrided (basicArray nv v1 v2 v3 v4 v5 v6 v7 v8 p1 p2 p3 p4)
        (2, 1) (2, 2) (-1, -1) = [nv, nv, v6, v5] := by
  constructor <;>
    simp [readStrided, readCellI, readCell, basicArray, List.range_succ]

/-! ### Writing tiles and the fill-value deletion optimization (§4.3) -/

/-- The all-fill chunk buffer for an array. -/
def fillBuf (a : ZArray2 α) : List α := List.replicate (a.chunkR * a.chunkC) a.fill

/-- Modelled from the spec: whether an all-fill tile may be deleted instead of
written (§4.3 `WriteTile`): always, unless the element type is complex and the
fill value is non-zero (the case where fill-as-absent cannot be represented
cheaply, per the write-array-content test's stat check). -/
def fillDeletable (isComplex fillNonZero : Bool) : Bool :=
  !(isComplex && fillNonZero)

/-- Modelled from the spec: `WriteTile(coord, buffer)` (§4.3): if the buffer is
entirely the fill value and deletion is representable (`delOk`), the physical
tile is deleted; otherwise the buffer is written normally. -/
def writeTile [DecidableEq α] (a : ZArray2 α) (delOk : Bool) (coord : Nat × Nat)
    (buf : List α) : ZArray2 α :=
  { a with tiles := fun c =>
      if c = coord then
        if buf.all (fun x => decide (x = a.fill)) && delOk then none else some buf
      else a.tiles c }

/-- Number of tile rows (ceiling division). -/
def numTileRows (a : ZArray2 α) : Nat := (a.rows + a.chunkR - 1) / a.chunkR

/-- Number of tile columns (ceiling division). -/
def numTileCols (a : ZArray2 α) : Nat := (a.cols + a.chunkC - 1) / a.chunkC

/-- All tile coordinates of the array's chunk grid, row-major. -/
def tileGridCoords (a : ZArray2 α) : List (Nat × Nat) :=
  (List.range (numTileRows a)).flatMap (fun ti =>
    (List.range (numTileCols a)).map (fun tj => (ti, tj)))

/-- Modelled from the spec: a whole-array `Write` of an all-fill buffer
(§4.4 `Write` decomposed into per-tile `WriteTile` calls, §4.3). -/
def writeAllFill [DecidableEq α] (a : ZArray2 α) (delOk : Bool) : ZArray2 α :=
  (tileGridCoords a).foldl (fun b p => writeTile b delOk p (fillBuf a)) a

theorem writeTile_shape [DecidableEq α] (a : ZArray2 α) (delOk : Bool)
    (coord : Nat × Nat) (buf : List α) :
    (writeTile a delOk coord buf).rows = a.rows ∧
    (writeTile a delOk coord buf).cols = a.cols ∧
    (writeTile a delOk coord buf).chunkR = a.chunkR ∧
    (writeTile a delOk coord buf).chunkC = a.chunkC ∧
    (writeTile a delOk coord buf).fill = a.fill := by
  simp [writeTile]

theorem writeMany_shape [DecidableEq α] (delOk : Bool) (buf : List α) :
    ∀ (L : List (Nat × Nat)) (a : ZArray2 α),
    (L.foldl (fun b p => writeTile b delOk p buf) a).rows = a.rows ∧
    (L.foldl (fun b p => writeTile b delOk p buf) a).cols = a.cols ∧
    (L.foldl (fun b p => writeTile b delOk p buf) a).chunkR = a.chunkR ∧
    (L.foldl (fun b p => writeTile b delOk p buf) a).chunkC = a.chunkC ∧
    (L.foldl (fun b p => writeTile b delOk p buf) a).fill = a.fill := by
  intro L
  induction L with
  | nil => intro a; simp
  | cons p L ih =>
      intro a
      exact ih (writeTile a delOk p buf)

theorem writeMany_tiles [DecidableEq α] (delOk : Bool) (buf : List α) :
    ∀ (L : List (Nat × Nat)) (a : ZArray2 α) (c : Nat × Nat),
    (L.foldl (fun b p => writeTile b delOk p buf) a).tiles c =
      if c ∈ L then
        (if buf.all (fun x => decide (x = a.fill)) && delOk then none else some buf)
      else a.tiles c := by
  intro L
  induction L with
  | nil => intro a c; simp
  | cons p L ih =>
      intro a c
      have hfill : (writeTile a delOk p buf).fill = a.fill := rfl
      have htl : (writeTile a delOk p buf).tiles c =
          if c = p then
            (if buf.all (fun x => decide (x = a.fill)) && delOk then none else some buf)
          else a.tiles c := rfl
      have h1 := ih (writeTile a delOk p buf) c
      rw [hfill, htl] at h1
      simp only [List.foldl_cons, h1, List.mem_cons]
      by_cases hmem : c ∈ L
      · simp [hmem]
      · by_cases hp : c = p
        · simp [hmem, hp]
        · simp [hmem, hp]

/-- Bound used for chunk grids: `n ≤ ⌈n / c⌉ * c`. -/
theorem le_ceil_mul (c n : Nat) (hc : 0 < c) : n ≤ ((n + c - 1) / c) * c := by
  rcases n with _ | m
  · simp
  · have h1 : (m + 1 + c - 1) = m + c := by omega
    rw [h1, Nat.add_div_right _ hc]
    have h2 := Nat.div_add_mod m c
    have h3 := Nat.mod_lt m hc
    have h4 : (m / c + 1) * c = c * (m / c) + c := by ring
    rw [h4]
    generalize hq : c * (m / c) = q at h2
    omega

/-- A cell inside the logical extent belongs to a tile of the chunk grid. -/
theorem cell_tile_mem (a : ZArray2 α) (i j : Nat)
    (hR : 0 < a.chunkR) (hC : 0 < a.chunkC)
    (hi : i < a.rows) (hj : j < a.cols) :
    (i / a.chunkR, j / a.chunkC) ∈ tileGridCoords a := by
  simp only [tileGridCoords, List.mem_flatMap, List.mem_map, List.mem_range]
  refine ⟨i / a.chunkR, ?_, ⟨j / a.chunkC, ?_, rfl⟩⟩
  · have := le_ceil_mul a.chunkR a.rows hR
    exact Nat.div_lt_of_lt_mul (Nat.lt_of_lt_of_le hi (by
      simpa [Nat.mul_comm] using this))
  · have := le_ceil_mul a.chunkC a.cols hC
    exact Nat.div_lt_of_lt_mul (Nat.lt_of_lt_of_le hj (by
      simpa [Nat.mul_comm] using this))

theorem getD_replicate (x : α) (n k : Nat) :
    (List.replicate n x).getD k x = x := by
  induction n generalizing k with
  | zero => simp [List.getD]
  | succ m ih =>
      cases k with
      | zero => simp [List.replicate_succ, List.getD]
      | succ k' =>
          rw [List.replicate_succ]
          exact ih k'

theorem flatMap_const_replicate {β : Type} (x : α) (c : Nat) :
    ∀ (L : List β), (L.flatMap fun _ => List.replicate c x) =
      List.replicate (L.length * c) x := by
  intro L
  induction L with
  | nil => simp
  | cons b L ih =>
      simp only [List.flatMap_cons, ih, List.length_cons]
      rw [Nat.succ_mul, Nat.add_comm, ← List.replicate_add]

/-- Every cell of the array after an all-fill whole-array write reads as fill. -/
theorem writeAllFill_cell [DecidableEq α] (a : ZArray2 α) (delOk : Bool)
    (hR : 0 < a.chunkR) (hC : 0 < a.chunkC) (i j : Nat)
    (hi : i < a.rows) (hj : j < a.cols) :
    readCell (writeAllFill a delOk) i j = a.fill := by
  have hshape : (writeAllFill a delOk).rows = a.rows ∧
      (writeAllFill a delOk).cols = a.cols ∧
      (writeAllFill a delOk).chunkR = a.chunkR ∧
      (writeAllFill a delOk).chunkC = a.chunkC ∧
      (writeAllFill a delOk).fill = a.fill :=
    writeMany_shape delOk (fillBuf a) (tileGridCoords a) a
  have htiles : (writeAllFill a delOk).tiles (i / a.chunkR, j / a.chunkC) =
      if (i / a.chunkR, j / a.chunkC) ∈ tileGridCoords a then
        (if (fillBuf a).all (fun x => decide (x = a.fill)) && delOk then none
         else some (fillBuf a))
      else a.tiles (i / a.chunkR, j / a.chunkC) :=
    writeMany_tiles delOk (fillBuf a) (tileGridCoords a) a
      (i / a.chunkR, j / a.chunkC)
  have hmem := cell_tile_mem a i j hR hC hi hj
  rw [if_pos hmem] at htiles
  unfold readCell
  rw [hshape.2.2.1, hshape.2.2.2.1, htiles]
  by_cases hdel : (fillBuf a).all (fun x => decide (x = a.fill)) && delOk
  · rw [if_pos hdel]
    exact hshape.2.2.2.2
  · rw [if_neg hdel, hshape.2.2.2.2]
    exact getD_replicate a.fill (a.chunkR * a.chunkC)
      (i % a.chunkR * a.chunkC + j % a.chunkC)

/-- Reading back after the tile-wise all-fill write yields all fill. -/
theorem writeAllFill_readFull [DecidableEq α] (a : ZArray2 α) (delOk : Bool)
    (hR : 0 < a.chunkR) (hC : 0 < a.chunkC) :
    readFull (writeAllFill a delOk) =
      List.replicate (a.rows * a.cols) a.fill := by
  have hshape : (writeAllFill a delOk).rows = a.rows ∧
      (writeAllFill a delOk).cols = a.cols ∧
      (writeAllFill a delOk).chunkR = a.chunkR ∧
      (writeAllFill a delOk).chunkC = a.chunkC ∧
      (writeAllFill a delOk).fill = a.fill :=
    writeMany_shape delOk (fillBuf a) (tileGridCoords a) a
  unfold readFull
  rw [hshape.1, hshape.2.1]
  have hrow : ∀ i ∈ List.range a.rows,
      ((List.range a.cols).map fun j => readCell (writeAllFill a delOk) i j) =
        List.replicate a.cols a.fill := by
    intro i hi
    rw [List.mem_range] at hi
    have : ∀ j ∈ List.range a.cols,
        readCell (writeAllFill a delOk) i j = a.fill := by
      intro j hj
      rw [List.mem_range] at hj
      exact writeAllFill_cell a delOk hR hC i j hi hj
    calc ((List.range a.cols).map fun j => readCell (writeAllFill a delOk) i j)
        = (List.range a.cols).map fun _ => a.fill := List.map_congr_left this
      _ = List.replicate a.cols a.fill := by
          simp [List.map_const']
  calc ((List.range a.rows).flatMap fun i =>
          (List.range a.cols).map fun j => readCell (writeAllFill a delOk) i j)
      = (List.range a.rows).flatMap fun _ => List.replicate a.cols a.fill := by
        apply List.flatMap_congr
        exact hrow
    _ = List.replicate (a.rows * a.cols) a.fill := by
        rw [flatMap_const_replicate, List.length_range]

/-- C3: writing an all-fill buffer over the whole array and reading back
yields the same all-fill buffer; afterwards every tile of the chunk grid is
physically absent when the fill value is representable as an absent tile
(`delOk = true`), and is written physically otherwise (the complex
non-zero-fill exception). -/
theorem write_fill_idempotent [DecidableEq α] (a : ZArray2 α) (delOk : Bool)
    (hR : 0 < a.chunkR) (hC : 0 < a.chunkC) :
    readFull (writeAllFill a delOk) = List.replicate (a.rows * a.cols) a.fill ∧
    (delOk = true → ∀ c ∈ tileGridCoords a, (writeAllFill a delOk).tiles c = none) ∧
    (delOk = false → ∀ c ∈ tileGridCoords a,
      (writeAllFill a delOk).tiles c = some (fillBuf a)) := by
  have hall : (fillBuf a).all (fun x => decide (x = a.fill)) = true := by
    simp [fillBuf, List.all_eq_true]
  refine ⟨writeAllFill_readFull a delOk hR hC, ?_, ?_⟩
  · intro hdel c hc
    subst hdel
    have h2 : (writeAllFill a true).tiles c =
        if c ∈ tileGridCoords a then
          (if (fillBuf a).all (fun x => decide (x = a.fill)) && true then none
           else some (fillBuf a))
        else a.tiles c :=
      writeMany_tiles true (fillBuf a) (tileGridCoords a) a c
    rw [if_pos hc, hall] at h2
    simpa using h2
  · intro hdel c hc
    subst hdel
    have h2 : (writeAllFill a false).tiles c =
        if c ∈ tileGridCoords a then
          (if (fillBuf a).all (fun x => decide (x = a.fill)) && false then none
           else some (fillBuf a))
        else a.tiles c :=
      writeMany_tiles false (fillBuf a) (tileGridCoords a) a c
    rw [if_pos hc, hall] at h2
    simpa using h2

/-- Witness for `write_fill_idempotent` at the concrete basic test array. -/
theorem write_fill_idempotent_witness :
    0 < (basicArray 0 1 2 3 4 5 6 7 8 0 0 0 0 : ZArray2 Nat).chunkR ∧
    0 < (basicArray 0 1 2 3 4 5 6 7 8 0 0 0 0 : ZArray2 Nat).chunkC ∧
    readFull (writeAllFill (basicArray 0 1 2 3 4 5 6 7 8 0 0 0 0 : ZArray2 Nat) true) =
      List.replicate
        ((basicArray 0 1 2 3 4 5 6 7 8 0 0 0 0 : ZArray2 Nat).rows *
          (basicArray 0 1 2 3 4 5 6 7 8 0 0 0 0 : ZArray2 Nat).cols) 0 :=
  ⟨by decide, by decide,
    (write_fill_idempotent (basicArray 0 1 2 3 4 5 6 7 8 0 0 0 0 : ZArray2 Nat)
      true (by decide) (by decide)).1⟩

/-! ### Resize (§4.4) -/

/-- Modelled from the spec: `Resize` grows, never shrinks, the array's
extents (§4.4); it fails with `ShrinkNotAllowed` (changing nothing) when any
requested size is smaller than the current one. -/
def resize (a : ZArray2 α) (newR newC : Nat) : Except ZErr (ZArray2 α) :=
  if newR < a.rows ∨ newC < a.cols then .error .ShrinkNotAllowed
  else .ok { a with rows := newR, cols := newC }

/-- The padding discipline of §3 (Chunk): every stored tile holds the fill
value in each cell that lies outside the array's logical extent. -/
def padOk (a : ZArray2 α) : Prop :=
  ∀ ti tj t, a.tiles (ti, tj) = some t →
    ∀ r c, r < a.chunkR → c < a.chunkC →
      (a.rows ≤ ti * a.chunkR + r ∨ a.cols ≤ tj * a.chunkC + c) →
      t.getD (r * a.chunkC + c) a.fill = a.fill

/-- C4: resize only grows.  A request shrinking any dimension fails with
`ShrinkNotAllowed` (and, the result being an error, leaves the array
unchanged); a growing request succeeds, after which every cell of the
original region reads exactly as before and every cell of the newly added
region reads as the fill value (given the padding discipline on stored
tiles). -/
theorem resize_only_grows (a : ZArray2 α) (newR newC : Nat)
    (hR : 0 < a.chunkR) (hC : 0 < a.chunkC) (hpad : padOk a) :
    ((newR < a.rows ∨ newC < a.cols) →
      resize a newR newC = .error .ShrinkNotAllowed) ∧
    (a.rows ≤ newR → a.cols ≤ newC →
      ∃ a', resize a newR newC = .ok a' ∧
        a'.rows = newR ∧ a'.cols = newC ∧
        (∀ i j, readCell a' i j = readCell a i j) ∧
        (∀ i j, i < newR → j < newC → (a.rows ≤ i ∨ a.cols ≤ j) →
          readCell a' i j = a.fill)) := by
  constructor
  · intro h
    simp [resize, h]
  · intro h1 h2
    refine ⟨{ a with rows := newR, cols := newC }, ?_, rfl, rfl, ?_, ?_⟩
    · simp [resize]
      omega
    · intro i j
      rfl
    · intro i j _ _ hnew
      show readCell { a with rows := newR, cols := newC } i j = a.fill
      unfold readCell
      cases htile : a.tiles (i / a.chunkR, j / a.chunkC) with
      | none => rfl
      | some t =>
          simp only
          apply hpad (i / a.chunkR) (j / a.chunkC) t htile
            (i % a.chunkR) (j % a.chunkC)
            (Nat.mod_lt i hR) (Nat.mod_lt j hC)
          rcases hnew with hrow | hcol
          · left
            have := Nat.div_add_mod i a.chunkR
            have heq : i / a.chunkR * a.chunkR + i % a.chunkR = i := by
              rw [Nat.mul_comm]
              exact this
            omega
          · right
            have := Nat.div_add_mod j a.chunkC
            have heq : j / a.chunkC * a.chunkC + j % a.chunkC = j := by
              rw [Nat.mul_comm]
              exact this
            omega

/-- The 2×2 array of the resize test, values 1..4 in one 2×2 tile. -/
def resizeTestArray : ZArray2 Nat :=
  { rows := 2, cols := 2, chunkR := 2, chunkC := 2, fill := 0,
    tiles := fun c => if c = (0, 0) then some [1, 2, 3, 4] else none }

theorem resizeTestArray_padOk : padOk resizeTestArray := by
  intro ti tj t ht r c hr hc hout
  by_cases h : (ti, tj) = ((0 : Nat), (0 : Nat))
  · rw [resizeTestArray] at ht
    simp only [h, if_pos] at ht
    have hti : ti = 0 := (Prod.mk.injEq _ _ _ _).mp h |>.1
    have htj : tj = 0 := (Prod.mk.injEq _ _ _ _).mp h |>.2
    subst hti htj
    simp only [resizeTestArray] at hr hc hout
    omega
  · rw [resizeTestArray] at ht
    simp only [h, if_neg, if_false] at ht
    exact absurd ht (by simp)

/-- Witness for `resize_only_grows` at the resize test's concrete input:
shrinking (2×2 → 1×2) fails, growing (2×2 → 5×2) succeeds with the original
cells intact and the new rows reading as fill. -/
theorem resize_only_grows_witness :
    resize resizeTestArray 1 2 = .error .ShrinkNotAllowed ∧
    (∃ a', resize resizeTestArray 5 2 = .ok a' ∧
      a'.rows = 5 ∧ a'.cols = 2 ∧
      (∀ i j, readCell a' i j = readCell resizeTestArray i j) ∧
      (∀ i j, i < 5 → j < 2 →
        (resizeTestArray.rows ≤ i ∨ resizeTestArray.cols ≤ j) →
        readCell a' i j = resizeTestArray.fill)) := by
  constructor
  · exact (resize_only_grows resizeTestArray 1 2 (by decide) (by decide)
      resizeTestArray_padOk).1 (by decide)
  · exact (resize_only_grows resizeTestArray 5 2 (by decide) (by decide)
      resizeTestArray_padOk).2 (by decide) (by decide)

/-! ### Shared dimensions and cascading resize (§3 Dimension, §4.4 Resize) -/

/-- A table of shared Dimension sizes, keyed by dimension id.  Arrays and
indexing-variable arrays read their extents from this table, which is how a
dimension resize cascades to every user of the dimension. -/
structure DimTable where
  sizes : Nat → Nat

/-- The current extents of an array whose axes reference dimensions by id. -/
def arraySizes (t : DimTable) (axes : List Nat) : List Nat := axes.map t.sizes

/-- Modelled from the spec: resizing an array whose axes reference shared
dimensions (§4.4).  `req` pairs each axis's dimension id with its requested
new size, in axis order.  Shrinking any axis fails with `ShrinkNotAllowed`;
two axes referencing the same dimension with different new sizes fail with
`InconsistentResize`; otherwise each referenced dimension takes its new size
in the shared table, which cascades to every referencing array. -/
def resizeShared (t : DimTable) (req : List (Nat × Nat)) : Except ZErr DimTable :=
  if req.any (fun p => decide (p.2 < t.sizes p.1)) then .error .ShrinkNotAllowed
  else if req.any (fun p => req.any (fun q =>
      decide (p.1 = q.1) && decide (p.2 ≠ q.2))) then .error .InconsistentResize
  else .ok { sizes := fun e =>
      match List.lookup e req with
      | some n => n
      | none => t.sizes e }

/-- C5: for an array referencing the same dimension `d` on both axes, a
resize giving the two axes different (non-shrinking) new sizes fails with
`InconsistentResize`; giving both the same new size succeeds, the new size
cascades to the shared dimension, to the array itself and to the
1-D indexing-variable array of `d`, and every other dimension is
untouched. -/
theorem resize_dim_referenced_twice (t : DimTable) (d n0 n1 : Nat)
    (h0 : t.sizes d ≤ n0) (h1 : t.sizes d ≤ n1) :
    (n0 ≠ n1 →
      resizeShared t [(d, n0), (d, n1)] = .error .InconsistentResize) ∧
    (n0 = n1 →
      ∃ t', resizeShared t [(d, n0), (d, n1)] = .ok t' ∧
        t'.sizes d = n0 ∧
        arraySizes t' [d, d] = [n0, n0] ∧
        arraySizes t' [d] = [n0] ∧
        ∀ e, e ≠ d → t'.sizes e = t.sizes e) := by
  have hshrink : ([(d, n0), (d, n1)].any fun p => decide (p.2 < t.sizes p.1)) =
      false := by
    simp only [List.any_cons, List.any_nil]
    simp only [Bool.or_false, Bool.or_eq_false_iff, decide_eq_false_iff_not]
    omega
  constructor
  · intro hne
    have hincons : ([(d, n0), (d, n1)].any fun p => [(d, n0), (d, n1)].any fun q =>
        decide (p.1 = q.1) && decide (p.2 ≠ q.2)) = true := by
      simp only [List.any_cons, List.any_nil]
      simp [hne]
    unfold resizeShared
    rw [hshrink, hincons]
    simp
  · intro heq
    subst heq
    have hincons : ([(d, n0), (d, n0)].any fun p => [(d, n0), (d, n0)].any fun q =>
        decide (p.1 = q.1) && decide (p.2 ≠ q.2)) = false := by
      simp only [List.any_cons, List.any_nil]
      simp
    refine ⟨{ sizes := fun e =>
        match List.lookup e [(d, n0), (d, n0)] with
        | some n => n
        | none => t.sizes e }, ?_, ?_, ?_, ?_, ?_⟩
    · have hshrink0 : ([(d, n0), (d, n0)].any fun p =>
          decide (p.2 < t.sizes p.1)) = false := by
        simp only [List.any_cons, List.any_nil]
        simp only [Bool.or_false, Bool.or_eq_false_iff, decide_eq_false_iff_not]
        omega
      unfold resizeShared
      rw [hshrink0, hincons]
      simp
    · simp [List.lookup]
    · simp [arraySizes, List.lookup]
    · simp [arraySizes, List.lookup]
    · intro e hne
      have hbeq : (e == d) = false := by simp [hne]
      simp [List.lookup, hbeq]

/-- The concrete dimension table of the dim-referenced-twice test: one
dimension (id 0) of size 2. -/
def dimTwiceTable : DimTable := { sizes := fun _ => 2 }

/-- Witness for `resize_dim_referenced_twice` at the test's inputs:
resize to [3,4] and [4,3] fail with `InconsistentResize`, resize to [3,3]
succeeds and cascades size 3 to the dimension and its indexing variable. -/
theorem resize_dim_referenced_twice_witness :
    resizeShared dimTwiceTable [(0, 3), (0, 4)] = .error .InconsistentResize ∧
    resizeShared dimTwiceTable [(0, 4), (0, 3)] = .error .InconsistentResize ∧
    (∃ t', resizeShared dimTwiceTable [(0, 3), (0, 3)] = .ok t' ∧
      t'.sizes 0 = 3 ∧ arraySizes t' [0, 0] = [3, 3] ∧ arraySizes t' [0] = [3] ∧
      ∀ e, e ≠ 0 → t'.sizes e = dimTwiceTable.sizes e) :=
  ⟨(resize_dim_referenced_twice dimTwiceTable 0 3 4 (by decide) (by decide)).1
      (by decide),
   (resize_dim_referenced_twice dimTwiceTable 0 4 3 (by decide) (by decide)).1
      (by decide),
   (resize_dim_referenced_twice dimTwiceTable 0 3 3 (by decide) (by decide)).2 rfl⟩

/-! ### Hierarchy nodes, handles and delete cascades (§4.5) -/

/-- Node kinds of the hierarchy. -/
inductive MKind where
  | group
  | array
  | attrib
  deriving DecidableEq, Repr

/-- A hierarchy node: its parent (none for the root), kind and name. -/
structure MNode where
  parent : Option Nat
  kind : MKind
  name : String
  deriving DecidableEq, Repr

/-- Modelled from the spec: the in-memory hierarchy (§4.5).  Node ids are
indices into `nodes`; `deletedIds` records nodes on which a delete was
executed (deletion is terminal and cascades through parent links). -/
structure MHier where
  nodes : List MNode
  deletedIds : List Nat

/-- The chain of a node and its ancestors, walked through parent links with
fuel bounded by the node count (the hierarchy is finite). -/
def ancChainAux (nodes : List MNode) : Nat → Nat → List Nat
  | 0, i => [i]
  | fuel + 1, i =>
      i :: (match (nodes.get? i).bind MNode.parent with
            | none => []
            | some p => ancChainAux nodes fuel p)

/-- A node id together with all its ancestors. -/
def selfOrAncestors (h : MHier) (i : Nat) : List Nat :=
  ancChainAux h.nodes h.nodes.length i

/-- A handle is dead when its node or any ancestor has been deleted. -/
def isDeletedNode (h : MHier) (i : Nat) : Bool :=
  (selfOrAncestors h i).any (fun x => h.deletedIds.contains x)

/-- Modelled from the spec: using a previously obtained handle (rename,
read, write, attribute enumeration) first checks liveness; a deleted node or
a descendant/attribute of one fails with `ObjectDeleted` (§4.5). -/
def useHandle (h : MHier) (i : Nat) : Except ZErr Unit :=
  if isDeletedNode h i then .error .ObjectDeleted else .ok ()

/-- Modelled from the spec: `DeleteGroup` marks the group deleted; through
`isDeletedNode` this cascades to every descendant and attribute handle. -/
def deleteGroup (h : MHier) (g : Nat) : MHier :=
  { h with deletedIds := g :: h.deletedIds }

/-- The listed (non-deleted) child group names of a parent node; this is
also what a reopened hierarchy enumerates, since deleted subtrees are
removed from the backing store. -/
def childGroupNames (h : MHier) (p : Nat) : List String :=
  (List.range h.nodes.length).filterMap (fun i =>
    match h.nodes.get? i with
    | some nd =>
        if nd.parent = some p ∧ nd.kind = MKind.group ∧ isDeletedNode h i = false
        then some nd.name else none
    | none => none)

/-- Opening a child group by name: only live group children are found. -/
def openChildGroup (h : MHier) (p : Nat) (nm : String) : Option Nat :=
  (List.range h.nodes.length).find? (fun i =>
    match h.nodes.get? i with
    | some nd =>
        decide (nd.parent = some p) && decide (nd.kind = MKind.group) &&
        decide (nd.name = nm) && !(isDeletedNode h i)
    | none => false)

/-- The hierarchy of the delete-group test: root with "group" and
"other_group"; "group" holds attribute "group_attr" and array "ar"; "ar"
holds attributes "attr" and "attr2". -/
def deleteTestHier : MHier :=
  { nodes :=
      [ { parent := none, kind := MKind.group, name := "/" },
        { parent := some 0, kind := MKind.group, name := "group" },
        { parent := some 0, kind := MKind.group, name := "other_group" },
        { parent := some 1, kind := MKind.attrib, name := "group_attr" },
        { parent := some 1, kind := MKind.array, name := "ar" },
        { parent := some 4, kind := MKind.attrib, name := "attr" },
        { parent := some 4, kind := MKind.attrib, name := "attr2" } ],
    deletedIds := [] }

/-- C6: deletion is terminal and cascades.  In general, after `DeleteGroup`
every handle whose node lies in the deleted group's subtree (itself, its
attributes, its arrays, their attributes) fails with `ObjectDeleted` on next
use.  On the delete-group test hierarchy: after deleting "group", the
handles to the group, its attribute, its array and the array's attributes
all fail with `ObjectDeleted`, the untouched sibling and root stay usable,
the parent no longer lists or opens "group" (also after reopening, which
enumerates the same surviving entries), while "other_group" is still
listed and openable. -/
theorem delete_group_cascades :
    (∀ (h : MHier) (g i : Nat), g ∈ selfOrAncestors h i →
      useHandle (deleteGroup h g) i = .error .ObjectDeleted) ∧
    (useHandle (deleteGroup deleteTestHier 1) 1 = .error .ObjectDeleted ∧
     useHandle (deleteGroup deleteTestHier 1) 3 = .error .ObjectDeleted ∧
     useHandle (deleteGroup deleteTestHier 1) 4 = .error .ObjectDeleted ∧
     useHandle (deleteGroup deleteTestHier 1) 5 = .error .ObjectDeleted ∧
     useHandle (deleteGroup deleteTestHier 1) 6 = .error .ObjectDeleted ∧
     useHandle (deleteGroup deleteTestHier 1) 0 = .ok () ∧
     useHandle (deleteGroup deleteTestHier 1) 2 = .ok () ∧
     childGroupNames deleteTestHier 0 = ["group", "other_group"] ∧
     childGroupNames (deleteGroup deleteTestHier 1) 0 = ["other_group"] ∧
     openChildGroup (deleteGroup deleteTestHier 1) 0 "group" = none ∧
     openChildGroup (deleteGroup deleteTestHier 1) 0 "other_group" = some 2) := by
  constructor
  · intro h g i hanc
    unfold useHandle
    have hdel : isDeletedNode (deleteGroup h g) i = true := by
      unfold isDeletedNode
      rw [List.any_eq_true]
      refine ⟨g, ?_, ?_⟩
      · exact hanc
      · simp [deleteGroup]
    rw [hdel]
    rfl
  · decide

/-- Witness for the hypothesis-bearing part of `delete_group_cascades`:
the handle to attribute "attr" (node 5), obtained before the delete, lies in
the deleted subtree of "group" (node 1). -/
theorem delete_group_cascades_witness :
    useHandle (deleteGroup deleteTestHier 1) 5 = .error .ObjectDeleted :=
  delete_group_cascades.1 deleteTestHier 1 5 (by decide)

/-! ### Group creation and name validation (§4.5) -/

/-- Reserved metadata filenames that may never be used as node names. -/
def reservedNames : List String :=
  [".zarray", ".zgroup", ".zattrs", ".zmetadata", "zarr.json"]

/-- Whether a name contains a path-separator character. -/
def hasPathSepChar (s : String) : Bool :=
  s.data.any (fun ch => ch == '/' || ch == '\\' || ch == ':')

/-- Modelled from the spec: validity of a requested new node name (§4.5
Create): it must not collide with an existing entry of the parent (sibling
group, array, or stray directory), must not be a reserved metadata filename,
must be non-empty, not "." or "..", and must not contain path-separator
characters. -/
def validNewNodeName (existing : List String) (s : String) : Bool :=
  !(existing.contains s) && !(reservedNames.contains s) &&
  !(s == "") && !(s == ".") && !(s == "..") && !(hasPathSepChar s)

/-- Modelled from the spec: `CreateGroup` under a parent whose current
entries are `existing`; an invalid name fails with `NameConflict` and no
group is created, a valid name appends the new entry.  Reopening the
hierarchy re-lists the same entries, so the outcome is the same after a
reopen. -/
def createGroup (existing : List String) (s : String) :
    Except ZErr (List String) :=
  if validNewNodeName existing s then .ok (existing ++ [s]) else .error .NameConflict

/-- The entries of the create-group-errors test's root: sibling group "foo"
and a stray directory "directory_with_that_name". -/
def createTestEntries : List String := ["foo", "directory_with_that_name"]

/-- C7: `CreateGroup` fails with `NameConflict`, creating nothing, for every
invalid name: a name already denoting a sibling entry, a reserved metadata
filename, the empty name, ".", "..", or a name containing a path-separator
character — in general and on each of the create-group-errors test's nine
requested names, while a fresh valid name succeeds. -/
theorem create_group_name_rules :
    (∀ (existing : List String) (s : String),
      (s ∈ existing ∨ s ∈ reservedNames ∨ s = "" ∨ s = "." ∨ s = ".." ∨
        hasPathSepChar s = true) →
      createGroup existing s = .error .NameConflict) ∧
    (∀ s ∈ ["foo", "directory_with_that_name", "", ".", "..", "a/b",
            "a\\n", "a:b", ".zarray"],
      createGroup createTestEntries s = .error .NameConflict) ∧
    createGroup createTestEntries "bar" =
      .ok ["foo", "directory_with_that_name", "bar"] := by
  refine ⟨?_, by decide, by decide⟩
  intro existing s h
  unfold createGroup
  rw [if_neg]
  intro hvalid
  unfold validNewNodeName at hvalid
  simp only [Bool.and_eq_true, Bool.not_eq_true'] at hvalid
  rcases h with h | h | h | h | h | h
  · rcases hvalid with ⟨⟨⟨⟨⟨h1, _⟩, _⟩, _⟩, _⟩, _⟩
    have h1e : List.elem s existing = false := h1
    rw [List.elem_eq_true_of_mem h] at h1e
    cases h1e
  · rcases hvalid with ⟨⟨⟨⟨⟨_, h2⟩, _⟩, _⟩, _⟩, _⟩
    have h2e : List.elem s reservedNames = false := h2
    rw [List.elem_eq_true_of_mem h] at h2e
    cases h2e
  · rcases hvalid with ⟨⟨⟨⟨⟨_, _⟩, h3⟩, _⟩, _⟩, _⟩
    simp [h] at h3
  · rcases hvalid with ⟨⟨⟨⟨⟨_, _⟩, _⟩, h4⟩, _⟩, _⟩
    simp [h] at h4
  · rcases hvalid with ⟨⟨⟨⟨⟨_, _⟩, _⟩, _⟩, h5⟩, _⟩
    simp [h] at h5
  · rcases hvalid with ⟨⟨⟨⟨⟨_, _⟩, _⟩, _⟩, _⟩, h6⟩
    rw [h] at h6
    cases h6

/-- Witness for the general part of `create_group_name_rules`: creating
".." under the test parent fails with `NameConflict`. -/
theorem create_group_name_rules_witness :
    createGroup createTestEntries ".." = .error .NameConflict :=
  create_group_name_rules.1 createTestEntries ".." (by decide)

/-! ### Recursive metadata loading guards (§4.5, §7, design note §9) -/

/-- Modelled from the spec: recursive array-metadata loading with an
explicit loading chain and a depth budget (§9 design note).  `refs` gives,
for each array, the arrays its dimension metadata references.  A name
already on the loading chain fails with `SelfReferenceDetected`; an
exhausted depth budget fails with `RecursionLimitExceeded`; otherwise every
referenced array is loaded in turn. -/
def loadArrayAux {β : Type} [DecidableEq β] (refs : β → List β) :
    Nat → List β → β → Except ZErr Unit
  | 0, _, _ => .error .RecursionLimitExceeded
  | fuel + 1, chain, name =>
      if name ∈ chain then .error .SelfReferenceDetected
      else
        (refs name).foldl
          (fun acc r => acc >>= fun _ => loadArrayAux refs fuel (chain ++ [name]) r)
          (.ok ())

/-- The fixed depth cap of the loading chain. -/
def loadDepthCap : Nat := 32

/-- Loading one array's metadata from the root of the hierarchy. -/
def loadArray {β : Type} [DecidableEq β] (refs : β → List β) (name : β) :
    Except ZErr Unit :=
  loadArrayAux refs loadDepthCap [] name

/-- Modelled from the spec: `OpenMDArray` always returns an array handle
(`true` here) and records the loading error, if any, rather than failing the
open (matching the recursive/too-deep loading tests, where the returned
array is non-null and the error is reported). -/
def openMDArray {β : Type} [DecidableEq β] (refs : β → List β) (name : β) :
    Bool × Option ZErr :=
  (true, match loadArray refs name with
         | .ok _ => none
         | .error e => some e)

/-- The a ↔ b dimension-reference cycle of the recursive-loading test:
array 0 ("a") references array 1 ("b") and vice versa. -/
def cycleRefs : Nat → List Nat := fun n =>
  if n = 0 then [1] else if n = 1 then [0] else []

/-- A linear reference chain: array `n` references array `n+1` while
`n < len`, so arrays `0..len` form a chain of `len + 1` arrays. -/
def chainRefs (len : Nat) : Nat → List Nat := fun n =>
  if n < len then [n + 1] else []

/-- C8: metadata loading terminates and fails cleanly on cyclic or
over-deep cross-references: opening array "a" of the a ↔ b cycle returns a
handle with a self-reference/recursive-loading error; opening the head of a
33-element chain returns a handle with a recursion-limit error (depth cap
32); the head of a 32-element chain still loads without error. -/
theorem recursive_loading_guards :
    openMDArray cycleRefs 0 = (true, some ZErr.SelfReferenceDetected) ∧
    openMDArray (chainRefs 32) 0 = (true, some ZErr.RecursionLimitExceeded) ∧
    openMDArray (chainRefs 31) 0 = (true, none) := by
  refine ⟨by decide, by decide, by decide⟩

/-! ### ENVI oversized-extent asymmetry (§4.4 numeric edge cases) -/

/-- The largest representable raster index (2^31 - 1). -/
def INT32_MAX : Nat := 2147483647

/-- The extents declared by an ENVI header. -/
structure EnviHeaderInfo where
  samples : Nat
  lines : Nat
  bands : Nat
  deriving DecidableEq, Repr

/-- The outcome of opening an ENVI dataset: opened with the resulting
raster sizes and whether a clamping warning was emitted, or a hard
failure. -/
inductive EnviOpenResult where
  | opened (xsize ysize bandCount : Nat) (warned : Bool)
  | failed
  deriving DecidableEq, Repr

/-- Modelled from the spec: the asymmetric oversized-extent policy (§4.4):
an oversized number of lines is clamped to `INT32_MAX` with a warning, while
an oversized number of samples or bands is a hard open error. -/
def enviOpen (h : EnviHeaderInfo) : EnviOpenResult :=
  if INT32_MAX < h.samples then .failed
  else if INT32_MAX < h.bands then .failed
  else if INT32_MAX < h.lines then .opened h.samples INT32_MAX h.bands true
  else .opened h.samples h.lines h.bands false

/-- C9: oversized-extent handling is asymmetric by axis: a declared line
count above the representable range opens successfully with the line count
clamped to `INT32_MAX` and a warning; the same oversize on samples or bands
fails the open outright; in-range headers open unclamped without warning. -/
theorem envi_oversize_asymmetry (h : EnviHeaderInfo) :
    (h.samples ≤ INT32_MAX → h.bands ≤ INT32_MAX → INT32_MAX < h.lines →
      enviOpen h = .opened h.samples INT32_MAX h.bands true) ∧
    (INT32_MAX < h.samples → enviOpen h = .failed) ∧
    (h.samples ≤ INT32_MAX → INT32_MAX < h.bands → enviOpen h = .failed) ∧
    (h.samples ≤ INT32_MAX → h.bands ≤ INT32_MAX → h.lines ≤ INT32_MAX →
      enviOpen h = .opened h.samples h.lines h.bands false) := by
  refine ⟨?_, ?_, ?_, ?_⟩
  · intro h1 h2 h3
    unfold enviOpen
    rw [if_neg (by omega), if_neg (by omega), if_pos h3]
  · intro h1
    unfold enviOpen
    rw [if_pos h1]
  · intro h1 h2
    unfold enviOpen
    rw [if_neg (by omega), if_pos h2]
  · intro h1 h2 h3
    unfold enviOpen
    rw [if_neg (by omega), if_neg (by omega), if_neg (by omega)]

/-- Witness for `envi_oversize_asymmetry` at the three ENVI tests' concrete
headers (each declaring 2147483648 on one axis). -/
theorem envi_oversize_asymmetry_witness :
    enviOpen { samples := 2, lines := 2147483648, bands := 1 } =
      .opened 2 2147483647 1 true ∧
    enviOpen { samples := 2147483648, lines := 2, bands := 1 } = .failed ∧
    enviOpen { samples := 1, lines := 2, bands := 2147483648 } = .failed :=
  ⟨(envi_oversize_asymmetry { samples := 2, lines := 2147483648, bands := 1 }).1
      (by decide) (by decide) (by decide),
   (envi_oversize_asymmetry { samples := 2147483648, lines := 2, bands := 1 }).2.1
      (by decide),
   (envi_oversize_asymmetry { samples := 1, lines := 2, bands := 2147483648 }).2.2.1
      (by decide) (by decide)⟩

/-! ### Optimized versus generic read paths (§4.4, config toggle of the
tests) -/

/-- The value of a tile cell addressed by tile coordinate and in-tile
position (the unit the optimized path copies from a fetched chunk). -/
def tileCellOpt (a : ZArray2 α) (ti tj r c : Nat) : α :=
  match a.tiles (ti, tj) with
  | none => a.fill
  | some t => t.getD (r * a.chunkC + c) a.fill

/-- Modelled from the spec: the optimized full-array read path: each output
row is assembled by walking the tile columns and copying from each
intersecting chunk one contiguous run of `min chunkC (cols - tj·chunkC)`
elements (a block copy), instead of locating every cell separately. -/
def readFullOpt (a : ZArray2 α) : List α :=
  (List.range a.rows).flatMap (fun i =>
    (List.range (numTileCols a)).flatMap (fun tj =>
      (List.range (min a.chunkC (a.cols - tj * a.chunkC))).map (fun c =>
        tileCellOpt a (i / a.chunkR) tj (i % a.chunkR) c)))

/-- Modelled from the spec: the driver's read entry point with the
optimized-code-paths toggle: the optimized block-copy path handles the
full-array contiguous request, everything else falls back to the generic
per-cell gather. -/
def zarrRead (useOpt : Bool) (a : ZArray2 α) (start : Int × Int)
    (count : Nat × Nat) (step : Int × Int) : List α :=
  if useOpt = true ∧ start = (0, 0) ∧ step = (1, 1) ∧ count = (a.rows, a.cols)
  then readFullOpt a
  else readStrided a start count step

theorem flatMap_eq_nil_all {β γ : Type} (L : List β) (g : β → List γ)
    (h : ∀ x ∈ L, g x = []) : L.flatMap g = [] := by
  induction L with
  | nil => rfl
  | cons b L ih =>
      rw [List.flatMap_cons, h b (by simp), ih (fun x hx => h x (by simp [hx]))]
      rfl

/-- Decomposing a mapped index range into consecutive blocks of width `c`
(the last block possibly short, trailing blocks empty). -/
theorem range_map_blocks {γ : Type} (c : Nat) (hc : 0 < c) :
    ∀ (k : Nat) (f : Nat → γ) (n : Nat), n ≤ k * c →
    (List.range n).map f =
      (List.range k).flatMap (fun t =>
        (List.range (min c (n - t * c))).map (fun j => f (t * c + j))) := by
  intro k
  induction k with
  | zero =>
      intro f n hn
      have hn0 : n = 0 := by omega
      subst hn0
      simp
  | succ k ih =>
      intro f n hn
      rw [List.range_succ_eq_map, List.flatMap_cons, List.flatMap_map]
      simp only [Nat.zero_mul, Nat.sub_zero, Nat.zero_add]
      by_cases hcn : n ≤ c
      · have h0 : min c n = n := by omega
        have hrest : ((List.range k).flatMap fun x =>
            (List.range (min c (n - (x + 1) * c))).map fun j =>
              f ((x + 1) * c + j)) = [] := by
          apply flatMap_eq_nil_all
          intro x _
          have hxc : c ≤ (x + 1) * c := by
            calc c = 1 * c := (Nat.one_mul c).symm
            _ ≤ (x + 1) * c := Nat.mul_le_mul_right c (by omega)
          have hz : min c (n - (x + 1) * c) = 0 := by
            generalize (x + 1) * c = K at hxc
            omega
          rw [hz]
          rfl
        rw [h0, hrest, List.append_nil]
      · have hm : n - c ≤ k * c := by
          rw [Nat.succ_mul] at hn
          generalize k * c = K at hn
          omega
        have hnm : n = c + (n - c) := by omega
        have hmin : min c n = c := by omega
        rw [hmin]
        conv =>
          lhs
          rw [hnm]
        rw [List.range_add, List.map_append, List.map_map]
        congr 1
        simp only [Function.comp_def]
        rw [ih (fun j => f (c + j)) (n - c) hm]
        apply List.flatMap_congr
        intro t _
        simp only [Nat.succ_eq_add_one]
        have harg : n - (t + 1) * c = n - c - t * c := by
          rw [Nat.succ_mul, Nat.add_comm (t * c) c, ← Nat.sub_sub]
        rw [harg]
        apply List.map_congr_left
        intro j _
        show f (c + (t * c + j)) = f ((t + 1) * c + j)
        congr 1
        ring

/-- One output row of the optimized path equals the same row of the generic
per-cell read. -/
theorem readFull_row_blocks (a : ZArray2 α) (hc : 0 < a.chunkC) (i : Nat) :
    ((List.range a.cols).map fun j => readCell a i j) =
      (List.range (numTileCols a)).flatMap (fun tj =>
        (List.range (min a.chunkC (a.cols - tj * a.chunkC))).map (fun c =>
          tileCellOpt a (i / a.chunkR) tj (i % a.chunkR) c)) := by
  have hcov : a.cols ≤ numTileCols a * a.chunkC := by
    have := le_ceil_mul a.chunkC a.cols hc
    simpa [numTileCols] using this
  rw [range_map_blocks a.chunkC hc (numTileCols a) _ a.cols hcov]
  apply List.flatMap_congr
  intro tj _
  apply List.map_congr_left
  intro c hcmem
  rw [List.mem_range] at hcmem
  have hclt : c < a.chunkC := lt_of_lt_of_le hcmem (Nat.min_le_left _ _)
  unfold readCell tileCellOpt
  have hdiv : (tj * a.chunkC + c) / a.chunkC = tj := by
    rw [Nat.mul_comm tj a.chunkC, Nat.mul_add_div hc, Nat.div_eq_of_lt hclt,
      Nat.add_zero]
  have hmod : (tj * a.chunkC + c) % a.chunkC = c := by
    rw [Nat.mul_comm tj a.chunkC, Nat.mul_add_mod, Nat.mod_eq_of_lt hclt]
  rw [hdiv, hmod]

/-- The optimized full-array read path returns exactly what the generic
per-cell path returns, on every array. -/
theorem readFullOpt_eq_readFull (a : ZArray2 α) (hc : 0 < a.chunkC) :
    readFullOpt a = readFull a := by
  unfold readFullOpt readFull
  apply List.flatMap_congr
  intro i _
  exact (readFull_row_blocks a hc i).symm

/-- The generic strided read of the full array with unit steps equals the
whole-array read. -/
theorem readStrided_full (a : ZArray2 α) :
    readStrided a (0, 0) (a.rows, a.cols) (1, 1) = readFull a := by
  unfold readStrided readFull
  apply List.flatMap_congr
  intro i hi
  apply List.map_congr_left
  intro j hj
  rw [List.mem_range] at hi hj
  unfold readCellI
  simp only [Int.ofNat_eq_coe]
  rw [if_pos (by constructor <;> [omega; (constructor <;> [omega; (constructor <;> omega)])])]
  congr 1 <;> omega

/-! ### Optimized versus generic write paths (§4.4 Write, §4.6) -/

/-- Decoded chunks always have exactly chunk-shape many elements. -/
def tilesSized (a : ZArray2 α) : Prop :=
  ∀ c t, a.tiles c = some t → t.length = a.chunkR * a.chunkC

/-- Modelled from the spec: the generic write path updates one cell through
a read-modify-write of its chunk (§4.4 `Write`): the existing chunk is
decoded (or fill-initialized when absent) and the one touched element is
replaced. -/
def writeCell [DecidableEq α] (a : ZArray2 α) (i j : Nat) (v : α) : ZArray2 α :=
  { a with tiles := fun c =>
      if c = (i / a.chunkR, j / a.chunkC) then
        some ((match a.tiles (i / a.chunkR, j / a.chunkC) with
               | none => fillBuf a
               | some t => t).set ((i % a.chunkR) * a.chunkC + (j % a.chunkC)) v)
      else a.tiles c }

/-- All cell coordinates of the array, row-major. -/
def cellGridCoords (a : ZArray2 α) : List (Nat × Nat) :=
  (List.range a.rows).flatMap (fun i =>
    (List.range a.cols).map (fun j => (i, j)))

/-- Modelled from the spec: the generic (non-optimized) whole-array write of
an all-fill buffer: every cell is written separately through the per-cell
read-modify-write path. -/
def writeAllFillGen [DecidableEq α] (a : ZArray2 α) : ZArray2 α :=
  (cellGridCoords a).foldl (fun b p => writeCell b p.1 p.2 b.fill) a

theorem writeCell_tilesSized [DecidableEq α] (a : ZArray2 α)
    (hsz : tilesSized a) (i j : Nat) (v : α) :
    tilesSized (writeCell a i j v) := by
  intro c t h
  have h' : (if c = (i / a.chunkR, j / a.chunkC) then
      some ((match a.tiles (i / a.chunkR, j / a.chunkC) with
             | none => fillBuf a
             | some t => t).set ((i % a.chunkR) * a.chunkC + (j % a.chunkC)) v)
      else a.tiles c) = some t := h
  by_cases hc : c = (i / a.chunkR, j / a.chunkC)
  · rw [if_pos hc] at h'
    have ht : t = (match a.tiles (i / a.chunkR, j / a.chunkC) with
        | none => fillBuf a
        | some t => t).set ((i % a.chunkR) * a.chunkC + (j % a.chunkC)) v := by
      injection h' with h''
      exact h''.symm
    show t.length = a.chunkR * a.chunkC
    rw [ht, List.length_set]
    cases hold : a.tiles (i / a.chunkR, j / a.chunkC) with
    | none => simp [fillBuf]
    | some u => simpa using hsz _ u hold
  · rw [if_neg hc] at h'
    exact hsz c t h'

/-- The per-cell write path changes exactly the written logical cell. -/
theorem writeCell_readCell [DecidableEq α] (a : ZArray2 α)
    (hsz : tilesSized a) (hR : 0 < a.chunkR) (hC : 0 < a.chunkC)
    (i j : Nat) (v : α) (x y : Nat) :
    readCell (writeCell a i j v) x y =
      if x = i ∧ y = j then v else readCell a x y := by
  have hwt : (writeCell a i j v).tiles (x / a.chunkR, y / a.chunkC) =
      (if ((x / a.chunkR, y / a.chunkC) : Nat × Nat) =
          (i / a.chunkR, j / a.chunkC) then
        some ((match a.tiles (i / a.chunkR, j / a.chunkC) with
               | none => fillBuf a
               | some t => t).set ((i % a.chunkR) * a.chunkC + (j % a.chunkC)) v)
      else a.tiles (x / a.chunkR, y / a.chunkC)) := rfl
  show (match (writeCell a i j v).tiles (x / a.chunkR, y / a.chunkC) with
        | none => a.fill
        | some t => t.getD ((x % a.chunkR) * a.chunkC + (y % a.chunkC)) a.fill) =
      if x = i ∧ y = j then v else readCell a x y
  rw [hwt]
  by_cases htile : ((x / a.chunkR, y / a.chunkC) : Nat × Nat) =
      (i / a.chunkR, j / a.chunkC)
  · rw [if_pos htile]
    have hdiv1 : x / a.chunkR = i / a.chunkR :=
      (Prod.mk.injEq _ _ _ _ |>.mp htile).1
    have hdiv2 : y / a.chunkC = j / a.chunkC :=
      (Prod.mk.injEq _ _ _ _ |>.mp htile).2
    have holdlen : (match a.tiles (i / a.chunkR, j / a.chunkC) with
        | none => fillBuf a
        | some t => t).length = a.chunkR * a.chunkC := by
      cases hold : a.tiles (i / a.chunkR, j / a.chunkC) with
      | none => simp [fillBuf]
      | some u => simpa using hsz _ u hold
    by_cases hidx : (x % a.chunkR) * a.chunkC + (y % a.chunkC) =
        (i % a.chunkR) * a.chunkC + (j % a.chunkC)
    · -- same in-tile index: it is the written cell
      have hmodR : x % a.chunkR = i % a.chunkR := by
        have e1 : ((x % a.chunkR) * a.chunkC + (y % a.chunkC)) / a.chunkC =
            x % a.chunkR := by
          rw [Nat.mul_comm, Nat.mul_add_div hC,
            Nat.div_eq_of_lt (Nat.mod_lt _ hC), Nat.add_zero]
        have e2 : ((i % a.chunkR) * a.chunkC + (j % a.chunkC)) / a.chunkC =
            i % a.chunkR := by
          rw [Nat.mul_comm, Nat.mul_add_div hC,
            Nat.div_eq_of_lt (Nat.mod_lt _ hC), Nat.add_zero]
        rw [← e1, ← e2, hidx]
      have hmodC : y % a.chunkC = j % a.chunkC := by
        have e1 : ((x % a.chunkR) * a.chunkC + (y % a.chunkC)) % a.chunkC =
            y % a.chunkC := by
          rw [Nat.mul_comm, Nat.mul_add_mod, Nat.mod_eq_of_lt (Nat.mod_lt _ hC)]
        have e2 : ((i % a.chunkR) * a.chunkC + (j % a.chunkC)) % a.chunkC =
            j % a.chunkC := by
          rw [Nat.mul_comm, Nat.mul_add_mod, Nat.mod_eq_of_lt (Nat.mod_lt _ hC)]
        rw [← e1, ← e2, hidx]
      have hx : x = i := by
        have d1 := Nat.div_add_mod x a.chunkR
        have d2 := Nat.div_add_mod i a.chunkR
        rw [← d1, ← d2, hdiv1, hmodR]
      have hy : y = j := by
        have d1 := Nat.div_add_mod y a.chunkC
        have d2 := Nat.div_add_mod j a.chunkC
        rw [← d1, ← d2, hdiv2, hmodC]
      rw [if_pos ⟨hx, hy⟩]
      have hlt : (i % a.chunkR) * a.chunkC + (j % a.chunkC) <
          a.chunkR * a.chunkC := by
        have h1 : i % a.chunkR < a.chunkR := Nat.mod_lt _ hR
        have h2 : j % a.chunkC < a.chunkC := Nat.mod_lt _ hC
        calc (i % a.chunkR) * a.chunkC + (j % a.chunkC)
            < (i % a.chunkR) * a.chunkC + a.chunkC := by omega
          _ = (i % a.chunkR + 1) * a.chunkC := (Nat.succ_mul _ _).symm
          _ ≤ a.chunkR * a.chunkC := Nat.mul_le_mul_right _ (by omega)
      simp only
      rw [hidx, List.getD_eq_getElem?_getD, List.getElem?_set, if_pos rfl,
        if_pos (by rw [holdlen]; exact hlt)]
      rfl
    · -- same tile, different in-tile index: untouched cell
      have hne : ¬(x = i ∧ y = j) := by
        rintro ⟨rfl, rfl⟩
        exact hidx rfl
      rw [if_neg hne]
      show ((match a.tiles (i / a.chunkR, j / a.chunkC) with
             | none => fillBuf a
             | some t => t).set ((i % a.chunkR) * a.chunkC + (j % a.chunkC))
               v).getD ((x % a.chunkR) * a.chunkC + (y % a.chunkC)) a.fill =
          readCell a x y
      rw [List.getD_eq_getElem?_getD, List.getElem?_set,
        if_neg (fun hh => hidx hh.symm)]
      unfold readCell
      rw [hdiv1, hdiv2]
      cases hold : a.tiles (i / a.chunkR, j / a.chunkC) with
      | none =>
          simp only [fillBuf]
          rw [← List.getD_eq_getElem?_getD, getD_replicate]
      | some u =>
          simp only
          rw [← List.getD_eq_getElem?_getD]
  · rw [if_neg htile]
    have hne : ¬(x = i ∧ y = j) := by
      rintro ⟨rfl, rfl⟩
      exact htile rfl
    rw [if_neg hne]
    rfl

theorem writeManyCells_shape [DecidableEq α] :
    ∀ (S : List (Nat × Nat)) (a : ZArray2 α),
    ((S.foldl (fun b p => writeCell b p.1 p.2 b.fill) a).rows = a.rows ∧
     (S.foldl (fun b p => writeCell b p.1 p.2 b.fill) a).cols = a.cols ∧
     (S.foldl (fun b p => writeCell b p.1 p.2 b.fill) a).chunkR = a.chunkR ∧
     (S.foldl (fun b p => writeCell b p.1 p.2 b.fill) a).chunkC = a.chunkC ∧
     (S.foldl (fun b p => writeCell b p.1 p.2 b.fill) a).fill = a.fill) := by
  intro S
  induction S with
  | nil => intro a; exact ⟨rfl, rfl, rfl, rfl, rfl⟩
  | cons p S ih => intro a; exact ih (writeCell a p.1 p.2 a.fill)

/-- Folding the per-cell write of the fill value over a list of cells sets
exactly those cells to fill and leaves every other cell unchanged. -/
theorem writeManyCells_readCell [DecidableEq α] :
    ∀ (S : List (Nat × Nat)) (a : ZArray2 α), tilesSized a →
      0 < a.chunkR → 0 < a.chunkC → ∀ x y,
      readCell (S.foldl (fun b p => writeCell b p.1 p.2 b.fill) a) x y =
        if (x, y) ∈ S then a.fill else readCell a x y := by
  intro S
  induction S with
  | nil => intro a _ _ _ x y; simp
  | cons p S ih =>
      intro a hsz hR hC x y
      have hsz' : tilesSized (writeCell a p.1 p.2 a.fill) :=
        writeCell_tilesSized a hsz p.1 p.2 a.fill
      have h1 := ih (writeCell a p.1 p.2 a.fill) hsz' hR hC x y
      have h2 := writeCell_readCell a hsz hR hC p.1 p.2 a.fill x y
      rw [List.foldl_cons]
      rw [show (writeCell a p.1 p.2 a.fill).fill = a.fill from rfl] at h1
      rw [h1, h2]
      by_cases hmem : (x, y) ∈ S
      · simp [hmem]
      · by_cases hp : x = p.1 ∧ y = p.2
        · have hpp : (x, y) = p := by
            obtain ⟨h3, h4⟩ := hp
            rw [h3, h4]
          simp [hmem, hp, hpp]
        · have hpp : (x, y) ≠ p := by
            intro hh
            apply hp
            constructor
            · exact congrArg Prod.fst hh
            · exact congrArg Prod.snd hh
          simp [hmem, hp, hpp]

/-- Assembling a whole-array read whose every cell is one constant. -/
theorem readFull_eq_replicate (b : ZArray2 α) (R C : Nat) (w : α)
    (hR : b.rows = R) (hC : b.cols = C)
    (h : ∀ i j, i < R → j < C → readCell b i j = w) :
    readFull b = List.replicate (R * C) w := by
  unfold readFull
  rw [hR, hC]
  have hrow : ∀ i ∈ List.range R,
      ((List.range C).map fun j => readCell b i j) = List.replicate C w := by
    intro i hi
    rw [List.mem_range] at hi
    calc ((List.range C).map fun j => readCell b i j)
        = (List.range C).map fun _ => w := by
          apply List.map_congr_left
          intro j hj
          rw [List.mem_range] at hj
          exact h i j hi hj
      _ = List.replicate C w := by simp [List.map_const']
  calc ((List.range R).flatMap fun i =>
          (List.range C).map fun j => readCell b i j)
      = (List.range R).flatMap fun _ => List.replicate C w := by
        apply List.flatMap_congr
        exact hrow
    _ = List.replicate (R * C) w := by
        rw [flatMap_const_replicate, List.length_range]

/-- A cell inside the extent is listed in the cell grid. -/
theorem cell_mem_cellGridCoords (a : ZArray2 α) (i j : Nat)
    (hi : i < a.rows) (hj : j < a.cols) : (i, j) ∈ cellGridCoords a := by
  simp only [cellGridCoords, List.mem_flatMap, List.mem_map, List.mem_range]
  exact ⟨i, hi, j, hj, rfl⟩

/-- The generic per-cell whole-array fill write leaves the same logical
content as the optimized per-tile path: all fill. -/
theorem writeAllFillGen_readFull [DecidableEq α] (a : ZArray2 α)
    (hsz : tilesSized a) (hR : 0 < a.chunkR) (hC : 0 < a.chunkC) :
    readFull (writeAllFillGen a) = List.replicate (a.rows * a.cols) a.fill := by
  have hshape := writeManyCells_shape (cellGridCoords a) a
  apply readFull_eq_replicate _ a.rows a.cols a.fill hshape.1 hshape.2.1
  intro i j hi hj
  have := writeManyCells_readCell (cellGridCoords a) a hsz hR hC i j
  rw [if_pos (cell_mem_cellGridCoords a i j hi hj)] at this
  exact this

/-- Modelled from the spec: the driver's write entry point with the
optimized-code-paths toggle, for the all-fill whole-array write of the
write-array-content test: the optimized path writes tile-by-tile (with the
fill-deletion optimization), the generic path writes cell-by-cell. -/
def zarrWriteFill [DecidableEq α] (useOpt : Bool) (a : ZArray2 α)
    (delOk : Bool) : ZArray2 α :=
  if useOpt then writeAllFill a delOk else writeAllFillGen a

/-- C10: the optimized and generic code paths are observationally
equivalent: every `Read` request — any start/count/step, negative or
strided — returns the same elements with the optimized paths enabled or
disabled, and the all-fill whole-array `Write` leaves the same logical
array content (all fill) through either path. -/
theorem optimized_generic_paths_equivalent [DecidableEq α] (a : ZArray2 α)
    (delOk : Bool) (hsz : tilesSized a) (hR : 0 < a.chunkR)
    (hC : 0 < a.chunkC) :
    (∀ (useOpt : Bool) (start : Int × Int) (count : Nat × Nat)
        (step : Int × Int),
      zarrRead useOpt a start count step = zarrRead false a start count step) ∧
    (∀ useOpt : Bool,
      readFull (zarrWriteFill useOpt a delOk) =
        readFull (zarrWriteFill false a delOk)) := by
  constructor
  · intro useOpt start count step
    cases useOpt with
    | false => rfl
    | true =>
        unfold zarrRead
        by_cases hreq : start = ((0 : Int), (0 : Int)) ∧
            step = ((1 : Int), (1 : Int)) ∧ count = (a.rows, a.cols)
        · rw [if_pos ⟨rfl, hreq⟩, if_neg (by rintro ⟨h, -⟩; cases h)]
          obtain ⟨h1, h2, h3⟩ := hreq
          subst h1
          subst h2
          subst h3
          rw [readFullOpt_eq_readFull a hC, ← readStrided_full a]
        · rw [if_neg (by rintro ⟨-, h⟩; exact hreq h),
            if_neg (by rintro ⟨h, -⟩; cases h)]
  · intro useOpt
    cases useOpt with
    | false => rfl
    | true =>
        show readFull (writeAllFill a delOk) = readFull (writeAllFillGen a)
        rw [writeAllFill_readFull a delOk hR hC,
          writeAllFillGen_readFull a hsz hR hC]

theorem basicNatArray_tilesSized :
    tilesSized (basicArray (0 : Nat) 1 2 3 4 5 6 7 8 0 0 0 0) := by
  intro c t h
  have hh : (if c = ((0 : Nat), (0 : Nat)) then some [1, 2, 3, 5, 6, 7]
      else if c = ((0 : Nat), (1 : Nat)) then some [4, 0, 0, 8, 0, 0]
      else none) = some t := h
  by_cases h1 : c = ((0 : Nat), (0 : Nat))
  · rw [if_pos h1] at hh
    injection hh with h'
    show t.length = 2 * 3
    rw [← h']
    rfl
  · by_cases h2 : c = ((0 : Nat), (1 : Nat))
    · rw [if_neg h1, if_pos h2] at hh
      injection hh with h'
      show t.length = 2 * 3
      rw [← h']
      rfl
    · rw [if_neg h1, if_neg h2] at hh
      cases hh

/-- Witness for `optimized_generic_paths_equivalent` at the basic test
array: the full-array read and the all-fill write agree between the
optimized and generic paths. -/
theorem optimized_generic_paths_equivalent_witness :
    zarrRead true (basicArray (0 : Nat) 1 2 3 4 5 6 7 8 0 0 0 0)
        (0, 0) (5, 4) (1, 1) =
      zarrRead false (basicArray (0 : Nat) 1 2 3 4 5 6 7 8 0 0 0 0)
        (0, 0) (5, 4) (1, 1) ∧
    readFull (zarrWriteFill true (basicArray (0 : Nat) 1 2 3 4 5 6 7 8 0 0 0 0)
        true) =
      readFull (zarrWriteFill false
        (basicArray (0 : Nat) 1 2 3 4 5 6 7 8 0 0 0 0) true) :=
  ⟨(optimized_generic_paths_equivalent
      (basicArray (0 : Nat) 1 2 3 4 5 6 7 8 0 0 0 0) true
      basicNatArray_tilesSized (by decide) (by decide)).1 true (0, 0) (5, 4)
      (1, 1),
   (optimized_generic_paths_equivalent
      (basicArray (0 : Nat) 1 2 3 4 5 6 7 8 0 0 0 0) true
      basicNatArray_tilesSized (by decide) (by decide)).2 true⟩

end GdalSpec
